import Mathlib

/-!
Verification development for the `ike` bytecode assembler
(`src/ike/bytecode.py`): a two-pass assembler for CPython instruction
streams embedded in procedure bodies, plus a procedure-patching step.

The embedding models the module's functions `guess_flags`, `stackdepth`,
`_build_linetable` and the two passes of `byc` over a shallow AST of the
listing statements.  Machine integers are `Nat`/`Int`; Python exceptions
are the explicit error type `PyErr`; host-collaborator services (the
expression evaluator, the `exec` of Option assignments) are opaque
functions carried in an `Env` record, as §6 of the design treats them.

The opcode table constants below are the relevant subset of CPython
3.10's `opcode` module (the external "opcode table collaborator"):
numeric codes, operand-class membership lists, the comparison-operator
list, and the stack-effect values of the opcodes exercised here.
-/

namespace Ike

/-- Structural value of a Python object, as far as this development
needs it: integers (raw operands, flags sources) and strings
(identifiers, comparison operators).  Other payloads are out of scope. -/
inductive PyLit where
  | int (n : Int)
  | str (s : String)
  | noneV
  deriving DecidableEq, Repr

/-- Model of a Python object: `oid` is the object identity (`id(x)`);
`lit` the structural value.  Two model values are equal exactly when
they stand for the same live object, so `object.__eq__(a, b) is True`
(which holds iff `a is b`) is modelled by equality of `PyVal`. -/
structure PyVal where
  oid : Nat
  lit : PyLit
  deriving DecidableEq, Repr

/-- Python exceptions that the assembler can raise, one constructor per
exception kind reached by the source: dict misses (`KeyError`), sequence
`.index` misses and out-of-range `bytearray.append` (`ValueError`),
unbound names in `eval` (`NameError`), missing AST attributes
(`AttributeError`), non-int bytes (`TypeError`), an `UnsafeBytecode`
warning escalated to an error by the module's `filterwarnings("error")`,
an opaque failure of an evaluated operand expression, and the modelling
restriction that a value cast to an identifier must be a string. -/
inductive PyErr where
  | keyError (s : String)
  | valueError
  | nameError (s : String)
  | attrError
  | typeError
  | unsafeBytecode
  | evalError
  | castNonStr
  deriving DecidableEq, Repr

/-! ### The opcode table collaborator (CPython 3.10 subset) -/

def HAVE_ARGUMENT : Nat := 90

def hasconst : List Nat := [100]

def hasname : List Nat := [90, 91, 95, 96, 97, 98, 101, 106, 108, 109, 116, 160]

def hasjrel : List Nat := [93, 110, 122, 143, 154]

def hasjabs : List Nat := [111, 112, 113, 114, 115, 121]

def haslocal : List Nat := [124, 125, 126]

def hasfree : List Nat := [135, 136, 137, 138, 148]

def hascompare : List Nat := [107]

/-- `_hasjump = opcode.hasjabs + opcode.hasjrel` (module line 17). -/
def hasjump : List Nat := hasjabs ++ hasjrel

def cmp_op : List String := ["<", "<=", "==", "!=", ">", ">="]

/-- Subset of `opcode.opmap` (mnemonic to numeric code) covering the
opcodes this development mentions; any other mnemonic behaves like an
unknown one (a `KeyError` on lookup, as in the source). -/
def opmap : List (String × Nat) :=
  [("POP_TOP", 1), ("DUP_TOP", 4), ("NOP", 9), ("UNARY_POSITIVE", 10),
   ("YIELD_FROM", 72), ("INPLACE_POWER", 76), ("RETURN_VALUE", 83),
   ("YIELD_VALUE", 86), ("FOR_ITER", 93), ("STORE_NAME", 90),
   ("LOAD_CONST", 100), ("LOAD_NAME", 101), ("COMPARE_OP", 107),
   ("JUMP_FORWARD", 110), ("JUMP_ABSOLUTE", 113), ("POP_JUMP_IF_FALSE", 114),
   ("LOAD_GLOBAL", 116), ("LOAD_FAST", 124), ("STORE_FAST", 125),
   ("LOAD_DEREF", 136), ("EXTENDED_ARG", 144)]

/-- Dictionary lookup (`d[k]` on a Python dict keyed by strings). -/
def keyFind (m : List (String × Nat)) (k : String) : Option Nat :=
  match m with
  | [] => none
  | (k2, v) :: rest => if k2 = k then some v else keyFind rest k

/-- `opcode.stack_effect` for the opcodes used here (the external
collaborator; jump opcodes get their `jump=None` maximal value as the
source calls it without a jump argument).  Opcodes outside the subset
are given effect 0; no theorem depends on their value. -/
def stack_effect (op : Nat) (arg : Nat) : Int :=
  match op, arg with
  | 1, _ => -1    -- POP_TOP
  | 4, _ => 1     -- DUP_TOP
  | 9, _ => 0     -- NOP
  | 10, _ => 0    -- UNARY_POSITIVE
  | 72, _ => -1   -- YIELD_FROM
  | 76, _ => -1   -- INPLACE_POWER
  | 83, _ => -1   -- RETURN_VALUE
  | 86, _ => 0    -- YIELD_VALUE
  | 93, _ => 1    -- FOR_ITER
  | 90, _ => -1   -- STORE_NAME
  | 100, _ => 1   -- LOAD_CONST
  | 101, _ => 1   -- LOAD_NAME
  | 107, _ => -1  -- COMPARE_OP
  | 110, _ => 0   -- JUMP_FORWARD
  | 113, _ => 0   -- JUMP_ABSOLUTE
  | 114, _ => -1  -- POP_JUMP_IF_FALSE
  | 116, _ => 1   -- LOAD_GLOBAL
  | 124, _ => 1   -- LOAD_FAST
  | 125, _ => -1  -- STORE_FAST
  | 136, _ => 1   -- LOAD_DEREF
  | 144, _ => 0   -- EXTENDED_ARG
  | _, _ => 0

/-! ### Code-object flags (`inspect.CO_*`) -/

def CO_OPTIMIZED : Nat := 1
def CO_NEWLOCALS : Nat := 2
def CO_VARARGS : Nat := 4
def CO_VARKEYWORDS : Nat := 8
def CO_NESTED : Nat := 16
def CO_GENERATOR : Nat := 32
def CO_NOFREE : Nat := 64
def CO_COROUTINE : Nat := 128
def CO_ASYNC_GENERATOR : Nat := 512

/-- Even-position elements of a list: Python's `bytecode[::2]`, the
opcode bytes of the fixed-width stream. -/
def evens : List Nat → List Nat
  | [] => []
  | [a] => [a]
  | a :: _ :: rest => a :: evens rest

/-- One step of the flag-scanning loop body of `guess_flags`
(bytecode.py lines 52-58), folded over the opcode bytes. -/
def guessStep (flags : Nat) (op : Nat) : Nat :=
  let flags := if op ∈ hasfree ∧ flags &&& CO_NOFREE ≠ 0 then flags ^^^ CO_NOFREE else flags
  let flags := if op = 86 ∨ op = 72 then flags ||| CO_GENERATOR else flags
  if op = 125 then flags ||| CO_NEWLOCALS else flags

/-- `guess_flags(bytecode, original_flags)` (bytecode.py lines 34-71).
Note the final conditional is a faithful rendering of
`flags & (inspect.CO_COROUTINE & inspect.CO_GENERATOR)`: a bitwise
`&` of the two flag constants, not a boolean conjunction. -/
def guess_flags (bytecode : List Nat) (original_flags : Nat) : Nat :=
  let flags := (evens bytecode).foldl guessStep CO_NOFREE
  let flags := flags |||
    (original_flags &&& (CO_VARARGS ||| CO_VARKEYWORDS ||| CO_NESTED ||| CO_COROUTINE))
  if flags &&& (CO_COROUTINE &&& CO_GENERATOR) ≠ 0 then
    (flags ^^^ (CO_COROUTINE ||| CO_GENERATOR)) ||| CO_ASYNC_GENERATOR
  else
    flags

/-! ### Stack-depth analyzer -/

/-- Pair up a byte list as Python's `zip(*[iter(bytecode)] * 2)` does,
dropping a trailing odd byte. -/
def pairUp : List Nat → List (Nat × Nat)
  | a :: b :: rest => (a, b) :: pairUp rest
  | _ => []

/-- Diagnostics that `stackdepth` emits as `UnsafeBytecode` warnings.
Main-path diagnostics carry the instruction index `i`; branch-walk
diagnostics carry the jump's index `i` and the branch-relative index
`j` (the `[i]`/`[i->j]` prefixes of the warning messages). -/
inductive Diag where
  | popEmpty (i : Nat)
  | nonzeroJump (i : Nat)
  | popEmptyBranch (i j : Nat)
  | nonzeroJumpBranch (i j : Nat)
  deriving DecidableEq, Repr

/-- The branch walk of `stackdepth` (bytecode.py lines 120-139):
re-simulates the running effect from a jump target onwards, emitting
branch diagnostics; does not touch `stacksize`. -/
def sdBranch (i : Nat) : List (Nat × Nat) → Nat → Int → List Diag
  | [], _, _ => []
  | (op, arg) :: rest, j, be =>
    let be := be + stack_effect op arg
    let d1 : List Diag := if be < 0 then [.popEmptyBranch i j] else []
    let d2 : List Diag := if op ∈ hasjump ∧ be ≠ 0 then [.nonzeroJumpBranch i j] else []
    d1 ++ d2 ++ sdBranch i rest (j + 1) be

/-- The main loop of `stackdepth` (bytecode.py lines 93-139) over the
instruction pairs, with the full byte list kept for target slicing. -/
def sdMain (full : List Nat) : List (Nat × Nat) → Nat → Int → Int → Int × List Diag
  | [], _, _, size => (size, [])
  | (op, arg) :: rest, i, cur, size =>
    let cur := cur + stack_effect op arg
    let size := if cur > size then cur else size
    let d1 : List Diag := if cur < 0 then [.popEmpty i] else []
    if op ∈ hasjump then
      let d2 : List Diag := if cur ≠ 0 then [.nonzeroJump i] else []
      let target := if op ∈ hasjrel then arg + i else arg
      let d3 := sdBranch i (pairUp (full.drop (target * 2))) 0 cur
      let r := sdMain full rest (i + 1) cur size
      (r.1, d1 ++ d2 ++ d3 ++ r.2)
    else
      let r := sdMain full rest (i + 1) cur size
      (r.1, d1 ++ r.2)

/-- `stackdepth(bytecode)` (bytecode.py lines 74-141), returning the
computed stack size together with the ordered list of diagnostics the
Python code would pass to `warnings.warn`. -/
def stackdepth (bytecode : List Nat) : Int × List Diag :=
  sdMain bytecode (pairUp bytecode) 0 0 0

/-- The module's import-time policy (bytecode.py line 31):
`warnings.filterwarnings("error", category=UnsafeBytecode)` makes every
`UnsafeBytecode` warning raise. -/
def defaultEscalate : Bool := true

/-! ### Line-table builder -/

/-- The run-merging loop of `_build_linetable` (bytecode.py lines
145-152), with the table kept in reverse so that Python's `table[-1]`
reads and writes are the head.  Entries are `(start, end, line)`; the
`(-1, -1, -1)` sentinel is supplied by the caller. -/
def mergeRunsRev (acc : List (Int × Int × Int)) : List (Nat × Nat) → List (Int × Int × Int)
  | [] => acc
  | (line, offset) :: rest =>
    match acc with
    | [] => mergeRunsRev [] rest
    | (ps, pe, pl) :: tl =>
      if pl = (line : Int) then
        mergeRunsRev ((ps, (offset : Int) + 2, pl) :: tl) rest
      else
        mergeRunsRev (((offset : Int), (offset : Int) + 2, (line : Int)) :: (ps, pe, pl) :: tl) rest

/-- The merged `(start, end, line)` run table of `_build_linetable`
after `table.pop(0)` has removed the sentinel. -/
def mergedTable (lines : List (Nat × Nat)) : List (Int × Int × Int) :=
  ((mergeRunsRev [(-1, -1, -1)] lines).reverse).drop 1

/-- The delta-encoding loop of `_build_linetable` (lines 153-162):
threads the previous line, checks `0 <= db <= 254 and 0 <= dl <= 127`,
and aborts (Python's early `return bytes()`) with `none` on the first
violation. -/
def encodeDeltas (line : Int) : List (Int × Int × Int) → Option (List Nat)
  | [] => some []
  | (a, b, c) :: rest =>
    let db := b - a
    let dl := c - line
    if 0 ≤ db ∧ db ≤ 254 ∧ 0 ≤ dl ∧ dl ≤ 127 then
      (encodeDeltas c rest).map (fun t => db.toNat :: dl.toNat :: t)
    else
      none

/-- `_build_linetable(lines)` (bytecode.py lines 144-162). -/
def build_linetable (lines : List (Nat × Nat)) : List Nat :=
  (encodeDeltas 0 (mergedTable lines)).getD []

/-- The raw `(byte-length delta, line delta)` pair sequence of a merged
run table, with the previous line threaded exactly as the encoding loop
threads it but with no range check: the quantity whose encodable range
the line-table claims are about. -/
def rawDeltas (line : Int) : List (Int × Int × Int) → List (Int × Int)
  | [] => []
  | (a, b, c) :: rest => (b - a, c - line) :: rawDeltas c rest

/-! ### Listing AST

The statements of the decorated procedure's body after the host's
parser (`compile(src, ..., PyCF_ONLY_AST)`), restricted to the node
shapes the assembler inspects.  Operand positions (`node.right`) hold
either an `ast.Constant` literal, an `ast.Name` identifier, or some
other expression, which the assembler only ever passes to `eval`;
other expressions are therefore opaque keys into the environment's
evaluator.  Identifiers are modelled as strings (a `Name` node built
by `_cast` from a non-string value is a modelling error
`PyErr.castNonStr`; no claim exercises that corner). -/

inductive ArgN where
  | constN (v : PyVal)
  | nameN (s : String)
  | exprN (k : Nat)
  deriving DecidableEq, Repr

/-- The value of an `Expr` statement: a bare opcode (`ast.Name`), an
`@`-instruction (`BinOp` with `MatMult`), a `%`-instruction (`BinOp`
with `Mod`), a labelled form (`BinOp` with `LShift`), or any other
expression (a docstring, an unrelated `BinOp`, ...), which both passes
skip. -/
inductive ExprV where
  | nameE (s : String)
  | matE (op : String) (arg : ArgN)
  | modE (op : String) (arg : ArgN)
  | lshiftE (inner : ExprV) (lbl : ArgN)
  | otherE
  deriving DecidableEq, Repr

/-- A body statement: an expression statement with its source line
number, an `Assign`/`AugAssign` Option statement (its effect is the
opaque `exec` collaborator, keyed by `k`), or any other statement,
which every loop of `byc` skips. -/
inductive Stmt where
  | exprS (lineno : Nat) (e : ExprV)
  | assignS (k : Nat)
  | otherS
  deriving DecidableEq, Repr

/-- Both passes strip a single `LShift` layer (`node = node.left`)
before dispatching on the node shape. -/
def stripLS : ExprV → ExprV
  | .lshiftE inner _ => inner
  | e => e

/-! ### Host collaborators and the original code object -/

/-- Derived metadata exposed to Option statements (the `opts` dict of
bytecode.py lines 340-347). -/
structure Opts where
  flags : Nat
  stacksize : Int
  names : List String
  consts : List PyVal
  varnames : List String
  freevars : List String
  deriving Repr

/-- The host-language collaborators of §6: `vars` is name lookup in the
defining globals merged with the caller frame's locals (`_eval` of a
`Name`); `exprs` evaluates an opaque operand expression; `optUpd` is
the `exec` of one Option assignment, reading and rewriting the derived
metadata. -/
structure Env where
  vars : String → Option PyVal
  exprs : Nat → Except PyErr PyVal
  optUpd : Nat → Opts → Except PyErr Opts

/-- The compiled-procedure descriptor (`CodeType`), with the fields the
assembler reads and writes. -/
structure CodeObj where
  argcount : Nat
  posonlyargcount : Nat
  kwonlyargcount : Nat
  nlocals : Nat
  stacksize : Int
  flags : Nat
  codebytes : List Nat
  consts : List PyVal
  names : List String
  varnames : List String
  filename : String
  name : String
  firstlineno : Nat
  linetable : List Nat
  freevars : List String
  cellvars : List String
  deriving DecidableEq, Repr

/-- A procedure object; the only field `byc` mutates is its code. -/
structure Proc where
  code : CodeObj
  deriving DecidableEq, Repr

/-! ### Pass 1: symbol pools, labels, line records -/

/-- The mutable pass-1 state of `byc` (bytecode.py lines 254-261):
the four pools, the label table, the instruction counter and the
line records. -/
structure P1State where
  names : List String
  consts : List PyVal
  vars : List String
  freevars : List String
  labels : List (String × Nat)
  bcount : Nat
  lines : List (Nat × Nat)
  deriving DecidableEq, Repr

/-- Python dict assignment `d[k] = v` on an insertion-ordered
association list. -/
def dictSet (m : List (String × Nat)) (k : String) (v : Nat) : List (String × Nat) :=
  match m with
  | [] => [(k, v)]
  | (k2, v2) :: rest => if k2 = k then (k, v) :: rest else (k2, v2) :: dictSet rest k v

/-- Python dict lookup `d.get(k)`. -/
def lookupLabel (m : List (String × Nat)) (k : String) : Option Nat :=
  match m with
  | [] => none
  | (k2, v2) :: rest => if k2 = k then some v2 else lookupLabel rest k

/-- `scope.append` guarded by `not in scope` (lines 290-291): ordered,
duplicate-free pool registration. -/
def addNew (l : List String) (s : String) : List String :=
  if s ∈ l then l else l ++ [s]

/-- `_eval` of an operand node (bytecode.py lines 240-245): a literal
evaluates to its value, a name is looked up in the two-level scope
(raising `NameError` when unbound), any other expression is the opaque
evaluator's business. -/
def evalArg (env : Env) : ArgN → Except PyErr PyVal
  | .constN v => .ok v
  | .nameN s =>
    match env.vars s with
    | some v => .ok v
    | none => .error (.nameError s)
  | .exprN k => env.exprs k

/-- `_cast(node, Constant)` (lines 247-250): keep a literal, otherwise
evaluate once and wrap the result. -/
def castConst (env : Env) : ArgN → Except PyErr PyVal
  | .constN v => .ok v
  | a => evalArg env a

/-- `_cast(node, Name)`: keep a `Name`, otherwise evaluate once and use
the resulting string as the identifier (a non-string result is the
modelling error `castNonStr`). -/
def castName (env : Env) : ArgN → Except PyErr String
  | .nameN s => .ok s
  | a => do
    let v ← evalArg env a
    match v.lit with
    | .str s => .ok s
    | _ => .error .castNonStr

/-- Pass-1 handling of the (LShift-stripped) expression core
(bytecode.py lines 272-295): pool registration with in-place operand
rewriting for `@`-instructions.  Returns the rewritten core, the new
state, and whether the statement was counted (reached the
`lines.append` / `bcount += 1` tail of the loop body).  The faithful
quirk: a `%`-instruction falls through `elif type(node) is BinOp and
type(node.op) is not Mod` to `elif type(node) is not Name` and is
`continue`d, so it is never counted. -/
def p1core (env : Env) (st : P1State) : ExprV → Except PyErr (ExprV × P1State × Bool)
  | .matE op arg => do
    match keyFind opmap op with
    | none => .error (.keyError op)
    | some opc =>
      if opc ∈ hasconst then do
        let v ← castConst env arg
        let consts2 := if v ∈ st.consts then st.consts else st.consts ++ [v]
        .ok (.matE op (.constN v), { st with consts := consts2 }, true)
      else if opc ∈ hasfree ∨ opc ∈ haslocal ∨ opc ∈ hasname then do
        let s ← castName env arg
        let st2 :=
          if opc ∈ hasname then { st with names := addNew st.names s }
          else if opc ∈ haslocal then { st with vars := addNew st.vars s }
          else { st with freevars := addNew st.freevars s }
        .ok (.matE op (.nameN s), st2, true)
      else
        .ok (.matE op arg, st, true)
  | .nameE s => .ok (.nameE s, st, true)
  | e => .ok (e, st, false)

/-- Record the line and advance the instruction counter (lines
297-298), applied when the loop body reached its tail. -/
def countStmt (st : P1State) (lineno : Nat) (counted : Bool) : P1State :=
  if counted then
    { st with lines := st.lines ++ [(lineno - 1, st.bcount)], bcount := st.bcount + 1 }
  else st

/-- Pass-1 handling of one statement (bytecode.py lines 262-298): only
`Expr` statements are inspected; a labelled statement first casts the
label to a `Name`, records it against the current counter, and
continues with the left operand.  The rewritten statement (Python
mutates the AST in place) is returned for pass 2. -/
def p1step (env : Env) (st : P1State) : Stmt → Except PyErr (Stmt × P1State)
  | .exprS lineno e =>
    match e with
    | .lshiftE inner lbl => do
      let s ← castName env lbl
      let st1 := { st with labels := dictSet st.labels s st.bcount }
      let r ← p1core env st1 inner
      .ok (.exprS lineno (.lshiftE r.1 (.nameN s)), countStmt r.2.1 lineno r.2.2)
    | _ => do
      let r ← p1core env st e
      .ok (.exprS lineno r.1, countStmt r.2.1 lineno r.2.2)
  | s => .ok (s, st)

/-- The whole first pass over the listing. -/
def pass1 (env : Env) : List Stmt → P1State → Except PyErr (List Stmt × P1State)
  | [], st => .ok ([], st)
  | s :: rest, st => do
    let r ← p1step env st s
    let r2 ← pass1 env rest r.2
    .ok (r.1 :: r2.1, r2.2)

/-- The initial pass-1 state (bytecode.py lines 238, 254-261): empty
pools except that the Local Slots pool is seeded with the original
procedure's parameter names and the Free Slots pool with its free
variables. -/
def p1init (co : CodeObj) : P1State :=
  { names := [], consts := [],
    vars := co.varnames.take (co.argcount + co.posonlyargcount + co.kwonlyargcount),
    freevars := co.freevars, labels := [], bcount := 0, lines := [] }

/-! ### Pass 2: emission -/

/-- The frozen pools and label table handed to pass 2 (the `tuple(...)`
freeze of bytecode.py lines 300-303). -/
structure Pools where
  names : List String
  consts : List PyVal
  vars : List String
  freevars : List String
  labels : List (String × Nat)
  deriving Repr

def mkPools (st : P1State) : Pools :=
  { names := st.names, consts := st.consts, vars := st.vars,
    freevars := st.freevars, labels := st.labels }

/-- `bytearray.append` of an index or opcode: `ValueError` outside
0..255. -/
def byteOf (i : Nat) : Except PyErr Nat :=
  if i ≤ 255 then .ok i else .error .valueError

/-- `bytearray.append` of an evaluated operand value: `TypeError` for a
non-int, `ValueError` outside 0..255. -/
def byteOfVal (v : PyVal) : Except PyErr Nat :=
  match v.lit with
  | .int n => if 0 ≤ n ∧ n ≤ 255 then .ok n.toNat else .error .valueError
  | _ => .error .typeError

/-- The identity scan of pass 2's constant lookup (lines 313-316):
index of the first pool entry for which `object.__eq__(x, v) is True`,
that is, of the first entry that is the same object. -/
def constIndex (consts : List PyVal) (v : PyVal) : Option Nat :=
  match consts with
  | [] => none
  | c :: rest => if c = v then some 0 else (constIndex rest v).map (· + 1)

/-- `seq.index(x)`: first index of `x`, `none` standing for the
`ValueError` Python raises on a miss. -/
def seqIndex (l : List String) (s : String) : Option Nat :=
  match l with
  | [] => none
  | c :: rest => if c = s then some 0 else (seqIndex rest s).map (· + 1)

/-- `node.right.id`, defined only on a `Name` node (`AttributeError`
otherwise). -/
def argId : ArgN → Except PyErr String
  | .nameN s => .ok s
  | _ => .error .attrError

/-- `node.right.value`, defined only on a `Constant` node
(`AttributeError` otherwise). -/
def argVal : ArgN → Except PyErr PyVal
  | .constN v => .ok v
  | _ => .error .attrError

/-- Pass-2 emission for one (LShift-stripped) expression core
(bytecode.py lines 309-334), returning the bytes this statement
appends.  Faithful quirks: the constant lookup appends no operand byte
at all when the identity scan finds nothing (the `for` has no `else`);
only `hasjabs` consults the label table — `hasjrel` opcodes fall into
the final `else` and have their operand evaluated as a host
expression. -/
def p2core (env : Env) (pl : Pools) : ExprV → Except PyErr (List Nat)
  | .matE op arg => do
    match keyFind opmap op with
    | none => .error (.keyError op)
    | some opc => do
      let b0 ← byteOf opc
      if opc ∈ hasconst then do
        let v ← argVal arg
        match constIndex pl.consts v with
        | some i => do
          let b1 ← byteOf i
          .ok [b0, b1]
        | none => .ok [b0]
      else if opc ∈ hasname then do
        let s ← argId arg
        match seqIndex pl.names s with
        | some i => do
          let b1 ← byteOf i
          .ok [b0, b1]
        | none => .error .valueError
      else if opc ∈ haslocal then do
        let s ← argId arg
        match seqIndex pl.vars s with
        | some i => do
          let b1 ← byteOf i
          .ok [b0, b1]
        | none => .error .valueError
      else if opc ∈ hasfree then do
        let s ← argId arg
        match seqIndex pl.freevars s with
        | some i => do
          let b1 ← byteOf i
          .ok [b0, b1]
        | none => .error .valueError
      else if opc ∈ hascompare then do
        let v ← argVal arg
        match v.lit with
        | .str s =>
          match seqIndex cmp_op s with
          | some i => do
            let b1 ← byteOf i
            .ok [b0, b1]
          | none => .error .valueError
        | _ => .error .valueError
      else if opc ∈ hasjabs then do
        let s ← argId arg
        match lookupLabel pl.labels s with
        | some i => do
          let b1 ← byteOf i
          .ok [b0, b1]
        | none => .error (.keyError s)
      else do
        let v ← evalArg env arg
        let b1 ← byteOfVal v
        .ok [b0, b1]
  | .modE op arg => do
    match keyFind opmap op with
    | none => .error (.keyError op)
    | some opc => do
      let b0 ← byteOf opc
      let v ← evalArg env arg
      let b1 ← byteOfVal v
      .ok [b0, b1]
  | .nameE s => do
    match keyFind opmap s with
    | none => .error (.keyError s)
    | some opc => do
      let b0 ← byteOf opc
      .ok [b0, 0]
  | _ => .ok []

/-- Pass-2 emission for one statement (bytecode.py lines 304-334):
only `Expr` statements emit, after stripping one `LShift` layer. -/
def p2step (env : Env) (pl : Pools) : Stmt → Except PyErr (List Nat)
  | .exprS _ e => p2core env pl (stripLS e)
  | _ => .ok []

/-- The whole second pass: the concatenated instruction stream. -/
def pass2 (env : Env) (pl : Pools) : List Stmt → Except PyErr (List Nat)
  | [] => .ok []
  | s :: rest => do
    let bs ← p2step env pl s
    let bss ← pass2 env pl rest
    .ok (bs ++ bss)

/-! ### Options and finalization -/

/-- The derived metadata seeded into the Option scope (bytecode.py
lines 340-347). -/
def initOpts (bc : List Nat) (co : CodeObj) (st : P1State) (stacksize : Int) : Opts :=
  { flags := guess_flags bc co.flags, stacksize := stacksize,
    names := st.names, consts := st.consts, varnames := st.vars,
    freevars := st.freevars }

/-- The Option loop (lines 348-354): each `Assign`/`AugAssign`
statement is `exec`ed against the derived metadata; the host `exec` is
the opaque `optUpd` collaborator. -/
def runOptions (env : Env) : List Stmt → Opts → Except PyErr Opts
  | [], o => .ok o
  | .assignS k :: rest, o => do
    let o2 ← env.optUpd k o
    runOptions env rest o2
  | _ :: rest, o => runOptions env rest o

/-- The new code object of the final patch (bytecode.py lines
363-380): original argument counts, name, file and first line; pools,
flags and stack size as possibly overridden by Options; the emitted
bytes and the line table; empty `cellvars`. -/
def finalize (co : CodeObj) (bc : List Nat) (st : P1State) (opts : Opts) : CodeObj :=
  { argcount := co.argcount, posonlyargcount := co.posonlyargcount,
    kwonlyargcount := co.kwonlyargcount, nlocals := opts.varnames.length,
    stacksize := opts.stacksize, flags := opts.flags, codebytes := bc,
    consts := opts.consts, names := opts.names, varnames := opts.varnames,
    filename := co.filename, name := co.name, firstlineno := co.firstlineno,
    linetable := build_linetable st.lines, freevars := opts.freevars,
    cellvars := [] }

/-- The assembler pipeline of `byc` (bytecode.py lines 236-361): pass
1, pass 2, the stack-depth analysis (whose diagnostics abort the run
when the module's `filterwarnings("error")` policy is in force:
`escalate = true`), flag and line-table derivation, then the Option
overrides.  Any error leaves the caller's procedure untouched, since
the single mutation happens only in `byc` below on a successful run. -/
def bycRun (escalate : Bool) (env : Env) (co : CodeObj) (body : List Stmt) :
    Except PyErr CodeObj :=
  match pass1 env body (p1init co) with
  | .error e => .error e
  | .ok p =>
    match pass2 env (mkPools p.2) p.1 with
    | .error e => .error e
    | .ok bc =>
      let sd := stackdepth bc
      if escalate = true ∧ sd.2 ≠ [] then .error .unsafeBytecode
      else
        match runOptions env body (initOpts bc co p.2 sd.1) with
        | .error e => .error e
        | .ok opts => .ok (finalize co bc p.2 opts)

/-- `byc` as the procedure patcher: on success the procedure's code is
replaced (`func.__code__ = ...`, line 363); on an exception the
procedure is returned unchanged, the exception alongside. -/
def byc (escalate : Bool) (env : Env) (f : Proc) (body : List Stmt) :
    Proc × Option PyErr :=
  match bycRun escalate env f.code body with
  | .ok newCode => ({ code := newCode }, none)
  | .error e => (f, some e)

/-- The same pipeline with the stack-depth diagnostics ignored
entirely, following the spec's words that the analyzer's findings are
advisory only (`UnsafeBytecode` downgraded to a plain warning): the
comparison point for the escalation claims. -/
def bycQuiet (env : Env) (co : CodeObj) (body : List Stmt) : Except PyErr CodeObj :=
  match pass1 env body (p1init co) with
  | .error e => .error e
  | .ok p =>
    match pass2 env (mkPools p.2) p.1 with
    | .error e => .error e
    | .ok bc =>
      match runOptions env body (initOpts bc co p.2 (stackdepth bc).1) with
      | .error e => .error e
      | .ok opts => .ok (finalize co bc p.2 opts)

/-! ### Concrete inputs for the claim counterexamples and witnesses -/

/-- An environment with no bound names, no evaluable opaque
expressions, and Option `exec`s that leave the metadata unchanged. -/
def env0 : Env :=
  { vars := fun _ => none, exprs := fun _ => .error .evalError,
    optUpd := fun _ o => .ok o }

/-- A zero-argument original code object. -/
def co0 : CodeObj :=
  { argcount := 0, posonlyargcount := 0, kwonlyargcount := 0, nlocals := 0,
    stacksize := 0, flags := 0, codebytes := [], consts := [], names := [],
    varnames := [], filename := "f", name := "g", firstlineno := 1,
    linetable := [], freevars := [], cellvars := [] }

/-- A one-argument original code object with parameter `n`. -/
def co1 : CodeObj := { co0 with argcount := 1, varnames := ["n"] }

/-- C1 input: a relative jump naming a label that the next line
declares (`JUMP_FORWARD @ lbl` then `NOP << lbl`), with no host
variable named `lbl` in scope. -/
def c1body : List Stmt :=
  [.exprS 1 (.matE "JUMP_FORWARD" (.nameN "lbl")),
   .exprS 2 (.lshiftE (.nameE "NOP") (.nameN "lbl"))]

/-- C2 witness input: a single bare `NOP`. -/
def c2wbody : List Stmt := [.exprS 1 (.nameE "NOP")]

/-- The code object `byc` produces for `c2wbody` over `co0`. -/
def res2w : CodeObj :=
  { argcount := 0, posonlyargcount := 0, kwonlyargcount := 0, nlocals := 0,
    stacksize := 0, flags := 64, codebytes := [9, 0], consts := [],
    names := [], varnames := [], filename := "f", name := "g",
    firstlineno := 1, linetable := [2, 0], freevars := [], cellvars := [] }

/-- C3 witness input: a bare opcode whose mnemonic is not in the
opcode table, so pass 2 raises `KeyError`. -/
def c3body : List Stmt := [.exprS 1 (.nameE "FROB")]

/-- C5 input: a one-argument listing that reads its local but never
stores one (`LOAD_FAST @ n; RETURN_VALUE`). -/
def c5body : List Stmt :=
  [.exprS 1 (.matE "LOAD_FAST" (.nameN "n")), .exprS 2 (.nameE "RETURN_VALUE")]

/-- An integer-5 object with identity tag 1. -/
def v5 : PyVal := ⟨1, .int 5⟩

/-- C6 witness input: the same constant object registered twice. -/
def c6body : List Stmt :=
  [.exprS 1 (.matE "LOAD_CONST" (.constN v5)),
   .exprS 2 (.matE "LOAD_CONST" (.constN v5))]

/-- The pass-1 output on `c6body`. -/
def out6 : List Stmt × P1State :=
  (c6body,
   { names := [], consts := [v5], vars := [], freevars := [], labels := [],
     bcount := 2, lines := [(0, 0), (1, 1)] })

/-- C7 input: an absolute jump to a label no statement declares. -/
def c7body : List Stmt := [.exprS 1 (.matE "JUMP_ABSOLUTE" (.nameN "nowhere"))]

/-- C8 input: a straight-line listing that pops from an empty stack
(`POP_TOP; RETURN_VALUE`), triggering the analyzer's diagnostic. -/
def c8body : List Stmt :=
  [.exprS 1 (.nameE "POP_TOP"), .exprS 2 (.nameE "RETURN_VALUE")]

/-- C10 input: a raw-operand instruction whose evaluated operand needs
more than 8 bits (`NOP % 256`). -/
def c10body : List Stmt := [.exprS 1 (.modE "NOP" (.constN ⟨1, .int 256⟩))]

/-- Pass-1 consistency of a rewritten expression core: an
`@`-instruction whose opcode is of the constant class carries a
literal operand whose value is registered in the Constants pool.
Pass 1 establishes this by rewriting the operand in place, and pass
2's constant lookup (which silently emits no operand byte on a miss)
relies on it. -/
def coreGood (consts : List PyVal) : ExprV → Prop
  | .matE op arg =>
    ∀ opc, keyFind opmap op = some opc → opc ∈ hasconst →
      ∃ v, arg = .constN v ∧ v ∈ consts
  | _ => True

/-- Pass-1 consistency of a rewritten statement, as pass 2 sees it
(after the one-layer `LShift` strip). -/
def goodConst (consts : List PyVal) : Stmt → Prop
  | .exprS _ e => coreGood consts (stripLS e)
  | _ => True

/-! ## Claim theorems -/

/-- C1: on a listing whose relative jump (`JUMP_FORWARD`, opcode 110,
of `opcode.hasjrel`) names a label that pass 1 did record at
instruction index 1, assembly does not encode that index: pass 2's
dispatch has a label branch only for `hasjabs`, so the relative jump's
operand is evaluated as a host expression and raises `NameError`.
This contradicts the claim (and the function's own docstring, which
says `opcode.hasjabs, opcode.hasjrel` both expect a label). -/
theorem c1_relative_jump_ignores_labels :
    bycRun defaultEscalate env0 co0 c1body = .error (.nameError "lbl") ∧
    (pass1 env0 c1body (p1init co0)).map (fun p => lookupLabel p.2.labels "lbl") =
      .ok (some 1) :=
  ⟨rfl, rfl⟩

/-- C4: the collapse of coroutine-and-generator into async-generator
is dead code: `flags & (CO_COROUTINE & CO_GENERATOR)` masks with
`128 & 32 = 0`, so on a yield-containing stream (`YIELD_VALUE` = 86)
whose original flags have `CO_COROUTINE`, `guess_flags` returns
`CO_NOFREE | CO_GENERATOR | CO_COROUTINE = 224`: the async-generator
flag is not set and neither coroutine nor generator is cleared,
contradicting the claim. -/
theorem c4_async_generator_never_derived :
    guess_flags [86, 0] CO_COROUTINE = 224 ∧
    guess_flags [86, 0] CO_COROUTINE &&& CO_ASYNC_GENERATOR = 0 ∧
    guess_flags [86, 0] CO_COROUTINE &&& CO_COROUTINE = CO_COROUTINE ∧
    guess_flags [86, 0] CO_COROUTINE &&& CO_GENERATOR = CO_GENERATOR := by
  exact ⟨by decide, by decide, by decide, by decide⟩

/-- C5 counterexample: a one-argument listing `LOAD_FAST @ n;
RETURN_VALUE` assembles with a non-empty Local Slots pool (`["n"]`,
seeded from the parameter) yet without `CO_NEWLOCALS` in the derived
flags, because `guess_flags` keys that flag on a `STORE_FAST` opcode
appearing in the stream, not on the pool. -/
theorem c5_counterexample :
    (bycRun defaultEscalate env0 co1 c5body).map
      (fun r => (r.varnames, r.flags &&& CO_NEWLOCALS)) = .ok (["n"], 0) :=
  rfl

/-- C7 counterexample: an absolute jump to an undeclared label fails
with a plain `KeyError` carrying only the missing symbol — there is no
`ResolutionError` in the module and no error carries the instruction
index — and the procedure is left unpatched. -/
theorem c7_counterexample :
    byc defaultEscalate env0 ⟨co0⟩ c7body = (⟨co0⟩, some (.keyError "nowhere")) :=
  rfl

/-- C8 counterexample: the listing `POP_TOP; RETURN_VALUE` makes the
analyzer emit "possible pop from empty stack" diagnostics, and under
the module's import-time policy (`filterwarnings("error")`, modelled
by `defaultEscalate`) that diagnostic aborts assembly: the procedure
is never patched, contradicting "emitting a diagnostic never prevents
the listing from being assembled and patched". -/
theorem c8_counterexample :
    (stackdepth [1, 0, 83, 0]).2 = [.popEmpty 0, .popEmpty 1] ∧
    bycRun defaultEscalate env0 co0 c8body = .error .unsafeBytecode :=
  ⟨rfl, rfl⟩

/-- C8 amended: the diagnostics are advisory exactly when the caller
downgrades the `UnsafeBytecode` filter: with escalation off, the
assembler's result is identical to the pipeline that ignores the
analyzer's diagnostics entirely, so a diagnostic never prevents
assembling and patching. -/
theorem c8_diag_advisory_without_escalation (env : Env) (co : CodeObj)
    (body : List Stmt) :
    bycRun false env co body = bycQuiet env co body := by
  unfold bycRun bycQuiet
  cases pass1 env body (p1init co) with
  | error e => rfl
  | ok p =>
    cases pass2 env (mkPools p.2) p.1 with
    | error e => rfl
    | ok bc => simp

/-- C9 counterexample: on the input `[(5, 0), (3, 1)]` (a line that
decreases), every byte-length delta of the merged runs is within the
8-bit bound and every line delta is within the signed 7-bit bound —
the deltas are `(2, 5)` and `(2, -2)` — yet the builder abandons the
table and returns it empty, because its actual check requires line
deltas to be non-negative (`0 <= dl <= 127`). -/
theorem c9_counterexample :
    build_linetable [(5, 0), (3, 1)] = [] ∧
    rawDeltas 0 (mergedTable [(5, 0), (3, 1)]) = [(2, 5), (2, -2)] ∧
    (0 ≤ (2 : Int) ∧ (2 : Int) ≤ 255 ∧ -64 ≤ (5 : Int) ∧ (5 : Int) ≤ 63) ∧
    (0 ≤ (2 : Int) ∧ (2 : Int) ≤ 255 ∧ -64 ≤ (-2 : Int) ∧ (-2 : Int) ≤ 63) :=
  ⟨rfl, rfl, by decide, by decide⟩

/-- C10 counterexample: the raw-operand listing `NOP % 256` makes
assembly fail with `ValueError` (the model of `bytearray.append(256)`)
instead of synthesizing an `EXTENDED_ARG` chain: no extend-operand
escape exists anywhere in the encoder. -/
theorem c10_no_extended_arg_synthesis :
    bycRun defaultEscalate env0 co0 c10body = .error .valueError :=
  rfl

/-- C3: error atomicity of the patch step.  Whenever `byc` reports an
exception, the returned procedure is the original one, untouched: the
single mutation `func.__code__ = ...` is the last step of the
pipeline and is only reached on a fully successful run. -/
theorem c3_no_mutation_before_patch (esc : Bool) (env : Env) (f : Proc)
    (body : List Stmt) (e : PyErr) (h : (byc esc env f body).2 = some e) :
    (byc esc env f body).1 = f := by
  unfold byc at h ⊢
  cases hb : bycRun esc env f.code body with
  | ok c => rw [hb] at h; simp at h
  | error e2 => rfl

/-- C3 witness: a listing with an unknown mnemonic errors in pass 2
and the procedure comes back unchanged. -/
theorem c3_no_mutation_before_patch_witness :
    (byc true env0 ⟨co0⟩ c3body).2 = some (.keyError "FROB") ∧
    (byc true env0 ⟨co0⟩ c3body).1 = ⟨co0⟩ :=
  ⟨rfl, c3_no_mutation_before_patch true env0 ⟨co0⟩ c3body (.keyError "FROB") rfl⟩

/-- Reduction of an `Except` bind on a success value, used to step the
monadic emission code in proofs. -/
theorem ok_bind {α β : Type} (a : α) (f : α → Except PyErr β) :
    (Except.ok a >>= f) = f a := rfl

/-- Reduction of an `Except` bind on an error value. -/
theorem error_bind {α β : Type} (e : PyErr) (f : α → Except PyErr β) :
    ((Except.error e : Except PyErr α) >>= f) = Except.error e := rfl

/-- C7 amended: an absolute-jump instruction whose operand names a
label absent from the label table fails with a `KeyError` that names
the missing symbol only (no instruction index, no dedicated error
class); the failure is an exception, so by the atomicity of the patch
step the procedure is untouched. -/
theorem c7_unresolved_label_plain_keyerror (env : Env) (pl : Pools) (n : Nat)
    (op : String) (opc : Nat) (lbl : String) (h1 : keyFind opmap op = some opc)
    (h2 : opc ∈ hasjabs) (h3 : lookupLabel pl.labels lbl = none) :
    p2step env pl (.exprS n (.matE op (.nameN lbl))) = .error (.keyError lbl) := by
  fin_cases h2 <;>
    simp [p2step, stripLS, p2core, h1, h3, byteOf, argId, ok_bind, hasconst,
      hasname, haslocal, hasfree, hascompare, hasjabs]

/-- C7 amended, witnessed at `JUMP_ABSOLUTE @ nowhere` with empty
pools. -/
theorem c7_unresolved_label_plain_keyerror_witness :
    keyFind opmap "JUMP_ABSOLUTE" = some 113 ∧
    p2step env0 ⟨[], [], [], [], []⟩
        (.exprS 1 (.matE "JUMP_ABSOLUTE" (.nameN "nowhere"))) =
      .error (.keyError "nowhere") :=
  ⟨rfl, c7_unresolved_label_plain_keyerror env0 ⟨[], [], [], [], []⟩ 1
    "JUMP_ABSOLUTE" 113 "nowhere" rfl (by decide) rfl⟩

/-- C10 amended: operands wider than one byte are not supported.  A
raw-operand (`%`) instruction whose evaluated operand is an integer
above 255 makes the encoder's byte append fail with `ValueError`; no
extend-operand sequence is synthesized anywhere. -/
theorem c10_wide_operand_valueerror (env : Env) (pl : Pools) (lineno : Nat)
    (op : String) (opc : Nat) (arg : ArgN) (oid : Nat) (n : Int)
    (h1 : keyFind opmap op = some opc) (h2 : opc ≤ 255)
    (h3 : evalArg env arg = .ok ⟨oid, .int n⟩) (h4 : 256 ≤ n) :
    p2step env pl (.exprS lineno (.modE op arg)) = .error .valueError := by
  have hn : ¬(0 ≤ n ∧ n ≤ 255) := by omega
  simp [p2step, stripLS, p2core, h1, h3, byteOf, h2, byteOfVal, hn, ok_bind, error_bind]

/-- C10 amended, witnessed at `NOP % 256`. -/
theorem c10_wide_operand_valueerror_witness :
    (256 : Int) ≤ 256 ∧
    p2step env0 ⟨[], [], [], [], []⟩ (.exprS 1 (.modE "NOP" (.constN ⟨1, .int 256⟩))) =
      .error .valueError :=
  ⟨by decide, c10_wide_operand_valueerror env0 ⟨[], [], [], [], []⟩ 1 "NOP" 9
    (.constN ⟨1, .int 256⟩) 1 256 rfl (by decide) rfl (by decide)⟩

/-- One `guessStep` changes bit 1 (the `CO_NEWLOCALS` bit) exactly by
OR-ing it in when the opcode is `STORE_FAST` (125): the `CO_NOFREE`
xor and the `CO_GENERATOR` or touch bits 6 and 5 only. -/
theorem guessStep_testBit_one (flags : Nat) (op : Nat) :
    (guessStep flags op).testBit 1 = (flags.testBit 1 || decide (op = 125)) := by
  unfold guessStep
  have h64 : Nat.testBit CO_NOFREE 1 = false := by decide
  have h32 : Nat.testBit CO_GENERATOR 1 = false := by decide
  have h2 : Nat.testBit CO_NEWLOCALS 1 = true := by decide
  split_ifs <;>
    simp_all [Nat.testBit_or, Nat.testBit_xor, h64, h32, h2]

/-- Bit 1 of the flag-scan fold: set exactly when the initial flags
have it or a `STORE_FAST` opcode occurs. -/
theorem foldGuess_testBit_one (ops : List Nat) (flags : Nat) :
    (ops.foldl guessStep flags).testBit 1 = (flags.testBit 1 || decide (125 ∈ ops)) := by
  induction ops generalizing flags with
  | nil => simp
  | cons op rest ih =>
    simp only [List.foldl_cons, ih, guessStep_testBit_one, List.mem_cons]
    by_cases hop : op = 125
    · subst hop
      simp [Bool.or_assoc]
    · have hop2 : ¬(125 = op) := fun h => hop h.symm
      simp [hop, hop2, Bool.or_assoc]

/-- C5 amended: the derived flags include `CO_NEWLOCALS` if and only
if a `STORE_FAST` opcode (125) appears among the opcode bytes of the
stream — not when the Local Slots pool is non-empty (the pool is not
consulted at all; see the counterexample). -/
theorem c5_newlocals_iff_store_fast (bytecode : List Nat) (original_flags : Nat) :
    guess_flags bytecode original_flags &&& CO_NEWLOCALS ≠ 0 ↔ 125 ∈ evens bytecode := by
  have hb : ∀ x : Nat, ¬(x &&& CO_NEWLOCALS = 0) ↔ x.testBit 1 = true := by
    intro x
    have h2p := Nat.and_two_pow x 1
    norm_num at h2p
    rw [show CO_NEWLOCALS = 2 by rfl, h2p]
    cases hx : x.testBit 1 <;> simp [hx]
  unfold guess_flags
  have hmask : CO_COROUTINE &&& CO_GENERATOR = 0 := by decide
  simp only [hmask, Nat.and_zero, ne_eq, eq_self_iff_true, not_true_eq_false,
    if_false]
  rw [hb]
  have hm : Nat.testBit (original_flags &&&
      (CO_VARARGS ||| CO_VARKEYWORDS ||| CO_NESTED ||| CO_COROUTINE)) 1 = false := by
    rw [Nat.testBit_and]
    have : Nat.testBit (CO_VARARGS ||| CO_VARKEYWORDS ||| CO_NESTED ||| CO_COROUTINE) 1 = false := by
      decide
    simp [this]
  rw [Nat.testBit_or, hm, foldGuess_testBit_one]
  have h64 : Nat.testBit CO_NOFREE 1 = false := by decide
  simp [h64]

/-- Appending a fresh element preserves duplicate-freedom. -/
theorem nodup_append_fresh (l : List PyVal) (v : PyVal) (h0 : l.Nodup)
    (hv : v ∉ l) : (l ++ [v]).Nodup := by
  rw [← List.concat_eq_append]
  exact h0.concat hv

/-- `countStmt` never touches the Constants pool. -/
theorem countStmt_consts (st : P1State) (lineno : Nat) (b : Bool) :
    (countStmt st lineno b).consts = st.consts := by
  unfold countStmt
  split <;> rfl

/-- Pass-1 registration of one expression core either leaves the
Constants pool unchanged or appends a single constant not yet present
(the identity scan guards the append). -/
theorem p1core_consts (env : Env) (st : P1State) (e : ExprV)
    (r : ExprV × P1State × Bool) (h : p1core env st e = .ok r) :
    r.2.1.consts = st.consts ∨
      ∃ v, v ∉ st.consts ∧ r.2.1.consts = st.consts ++ [v] := by
  cases e with
  | matE op arg =>
    cases hk : keyFind opmap op with
    | none =>
      simp only [p1core, hk] at h
      exact Except.noConfusion h
    | some opc =>
      simp only [p1core, hk] at h
      by_cases hc : opc ∈ hasconst
      · simp only [if_pos hc] at h
        cases hcc : castConst env arg with
        | error e2 =>
          simp only [hcc, error_bind] at h
          exact Except.noConfusion h
        | ok v =>
          simp only [hcc, ok_bind] at h
          cases h
          by_cases hv : v ∈ st.consts
          · exact Or.inl (by simp [hv])
          · exact Or.inr ⟨v, hv, by simp [hv]⟩
      · simp only [if_neg hc] at h
        by_cases hp : opc ∈ hasfree ∨ opc ∈ haslocal ∨ opc ∈ hasname
        · simp only [if_pos hp] at h
          cases hcn : castName env arg with
          | error e2 =>
            simp only [hcn, error_bind] at h
            exact Except.noConfusion h
          | ok s2 =>
            simp only [hcn, ok_bind] at h
            cases h
            refine Or.inl ?_
            dsimp only
            split
            · rfl
            · split <;> rfl
        · simp only [if_neg hp] at h
          cases h
          exact Or.inl rfl
  | nameE s =>
    simp only [p1core] at h
    cases h
    exact Or.inl rfl
  | modE op arg =>
    simp only [p1core] at h
    cases h
    exact Or.inl rfl
  | lshiftE inner lbl =>
    simp only [p1core] at h
    cases h
    exact Or.inl rfl
  | otherE =>
    simp only [p1core] at h
    cases h
    exact Or.inl rfl

/-- One pass-1 step either keeps the Constants pool or appends a
single fresh constant. -/
theorem p1step_consts (env : Env) (st : P1State) (s : Stmt)
    (r : Stmt × P1State) (h : p1step env st s = .ok r) :
    r.2.consts = st.consts ∨
      ∃ v, v ∉ st.consts ∧ r.2.consts = st.consts ++ [v] := by
  cases s with
  | exprS lineno e =>
    cases e with
    | lshiftE inner lbl =>
      simp only [p1step] at h
      cases hcn : castName env lbl with
      | error e2 =>
        simp only [hcn, error_bind] at h
        exact Except.noConfusion h
      | ok lblS =>
        simp only [hcn, ok_bind] at h
        cases hc : p1core env
            { st with labels := dictSet st.labels lblS st.bcount } inner with
        | error e2 =>
          simp only [hc, error_bind] at h
          exact Except.noConfusion h
        | ok rc =>
          simp only [hc, ok_bind] at h
          cases h
          have hcc := p1core_consts env _ inner rc hc
          dsimp only
          rw [countStmt_consts]
          exact hcc
    | nameE s2 =>
      simp only [p1step] at h
      cases hc : p1core env st (ExprV.nameE s2) with
      | error e2 =>
        simp only [hc, error_bind] at h
        exact Except.noConfusion h
      | ok rc =>
        simp only [hc, ok_bind] at h
        cases h
        dsimp only
        rw [countStmt_consts]
        exact p1core_consts env st _ rc hc
    | matE op arg =>
      simp only [p1step] at h
      cases hc : p1core env st (ExprV.matE op arg) with
      | error e2 =>
        simp only [hc, error_bind] at h
        exact Except.noConfusion h
      | ok rc =>
        simp only [hc, ok_bind] at h
        cases h
        dsimp only
        rw [countStmt_consts]
        exact p1core_consts env st _ rc hc
    | modE op arg =>
      simp only [p1step] at h
      cases hc : p1core env st (ExprV.modE op arg) with
      | error e2 =>
        simp only [hc, error_bind] at h
        exact Except.noConfusion h
      | ok rc =>
        simp only [hc, ok_bind] at h
        cases h
        dsimp only
        rw [countStmt_consts]
        exact p1core_consts env st _ rc hc
    | otherE =>
      simp only [p1step] at h
      cases hc : p1core env st ExprV.otherE with
      | error e2 =>
        simp only [hc, error_bind] at h
        exact Except.noConfusion h
      | ok rc =>
        simp only [hc, ok_bind] at h
        cases h
        dsimp only
        rw [countStmt_consts]
        exact p1core_consts env st _ rc hc
  | assignS k =>
    simp only [p1step] at h
    cases h
    exact Or.inl rfl
  | otherS =>
    simp only [p1step] at h
    cases h
    exact Or.inl rfl

/-- One pass-1 step preserves duplicate-freedom of the Constants
pool. -/
theorem p1step_consts_nodup (env : Env) (st : P1State) (s : Stmt)
    (r : Stmt × P1State) (h : p1step env st s = .ok r)
    (h0 : st.consts.Nodup) : r.2.consts.Nodup := by
  rcases p1step_consts env st s r h with heq | ⟨v, hv, heq⟩
  · rw [heq]; exact h0
  · rw [heq]; exact nodup_append_fresh _ _ h0 hv

/-- The whole first pass preserves duplicate-freedom of the Constants
pool. -/
theorem pass1_consts_nodup (env : Env) (body : List Stmt) :
    ∀ (st : P1State) (out : List Stmt × P1State),
      pass1 env body st = .ok out → st.consts.Nodup → out.2.consts.Nodup := by
  induction body with
  | nil =>
    intro st out h h0
    cases h
    exact h0
  | cons s rest ih =>
    intro st out h h0
    simp only [pass1] at h
    cases hs : p1step env st s with
    | error e =>
      simp only [hs, error_bind] at h
      exact Except.noConfusion h
    | ok r =>
      simp only [hs, ok_bind] at h
      cases hr : pass1 env rest r.2 with
      | error e =>
        simp only [hr, error_bind] at h
        exact Except.noConfusion h
      | ok r2 =>
        simp only [hr, ok_bind] at h
        cases h
        exact ih r.2 r2 hr (p1step_consts_nodup env st s r hs h0)

/-- C6: identity-deduplication of the Constants pool.  `object.__eq__
(x, v) is True` holds exactly for the same object, so after pass 1 the
pool never stores the same constant at two distinct indices, and any
two registered constants that are indistinguishable under that
identity-aware equality share their single pool index. -/
theorem c6_constants_identity_dedup (env : Env) (body : List Stmt)
    (st : P1State) (h0 : st.consts.Nodup) (out : List Stmt × P1State)
    (h : pass1 env body st = .ok out) :
    out.2.consts.Nodup ∧
      ∀ c1 c2 : PyVal, c1 = c2 →
        out.2.consts.indexOf c1 = out.2.consts.indexOf c2 := by
  refine ⟨pass1_consts_nodup env body st out h h0, ?_⟩
  intro c1 c2 hc
  rw [hc]

/-- C6 witness: registering the same constant object twice yields the
one-entry pool `[v5]`, duplicate-free. -/
theorem c6_constants_identity_dedup_witness :
    (p1init co0).consts.Nodup ∧ out6.2.consts.Nodup :=
  ⟨by simp [p1init, co0],
   (c6_constants_identity_dedup env0 c6body (p1init co0)
     (by simp [p1init, co0]) out6 rfl).1⟩

/-- The encoding loop aborts exactly when some raw delta pair of the
run table falls outside the checked ranges. -/
theorem encodeDeltas_none_iff (t : List (Int × Int × Int)) :
    ∀ line, encodeDeltas line t = none ↔
      ∃ p ∈ rawDeltas line t,
        ¬(0 ≤ p.1 ∧ p.1 ≤ 254 ∧ 0 ≤ p.2 ∧ p.2 ≤ 127) := by
  induction t with
  | nil =>
    intro line
    simp [encodeDeltas, rawDeltas]
  | cons x rest ih =>
    intro line
    obtain ⟨a, b, c⟩ := x
    simp only [encodeDeltas, rawDeltas, List.mem_cons]
    by_cases hok : 0 ≤ b - a ∧ b - a ≤ 254 ∧ 0 ≤ c - line ∧ c - line ≤ 127
    · rw [if_pos hok]
      rw [Option.map_eq_none']
      rw [ih c]
      constructor
      · rintro ⟨p, hp, hbad⟩
        exact ⟨p, Or.inr hp, hbad⟩
      · rintro ⟨p, hp | hp, hbad⟩
        · rw [hp] at hbad
          exact absurd hok hbad
        · exact ⟨p, hp, hbad⟩
    · rw [if_neg hok]
      constructor
      · intro _
        exact ⟨(b - a, c - line), Or.inl rfl, hok⟩
      · intro _
        rfl

/-- A successful encoding is empty exactly for an empty run table
(each run contributes two bytes). -/
theorem encodeDeltas_some_nil (t : List (Int × Int × Int)) (line : Int)
    (l : List Nat) (h : encodeDeltas line t = some l) : l = [] ↔ t = [] := by
  cases t with
  | nil =>
    simp only [encodeDeltas] at h
    cases h
    simp
  | cons x rest =>
    obtain ⟨a, b, c⟩ := x
    simp only [encodeDeltas] at h
    by_cases hok : 0 ≤ b - a ∧ b - a ≤ 254 ∧ 0 ≤ c - line ∧ c - line ≤ 127
    · rw [if_pos hok] at h
      cases hrest : encodeDeltas c rest with
      | none => rw [hrest] at h; cases h
      | some l2 =>
        rw [hrest] at h
        simp only [Option.map_some'] at h
        cases h
        simp
    · rw [if_neg hok] at h
      cases h

/-- The raw delta list is empty exactly for an empty run table. -/
theorem rawDeltas_nil (t : List (Int × Int × Int)) (line : Int) :
    rawDeltas line t = [] ↔ t = [] := by
  cases t with
  | nil => simp [rawDeltas]
  | cons x rest =>
    obtain ⟨a, b, c⟩ := x
    simp [rawDeltas]

/-- C9 amended: the line-table builder returns an empty table iff the
merged same-line runs are themselves empty or some run's
(byte-length delta, line delta) pair leaves the checked ranges, which
are the unsigned ranges 0..254 and 0..127 (a decreasing line also
abandons the table, although its delta fits a signed 7-bit encoding);
otherwise it returns the delta-encoded pair sequence.  The builder is
a total function: overflow yields the empty table, never an error. -/
theorem c9_empty_iff_delta_out_of_range (lines : List (Nat × Nat)) :
    build_linetable lines = [] ↔
      rawDeltas 0 (mergedTable lines) = [] ∨
      ∃ p ∈ rawDeltas 0 (mergedTable lines),
        ¬(0 ≤ p.1 ∧ p.1 ≤ 254 ∧ 0 ≤ p.2 ∧ p.2 ≤ 127) := by
  unfold build_linetable
  cases he : encodeDeltas 0 (mergedTable lines) with
  | none =>
    simp only [Option.getD_none]
    constructor
    · intro _
      exact Or.inr ((encodeDeltas_none_iff _ 0).mp he)
    · intro _
      trivial
  | some l =>
    simp only [Option.getD_some]
    constructor
    · intro hl
      left
      have ht := (encodeDeltas_some_nil _ 0 l he).mp hl
      rw [ht]
      simp [rawDeltas]
    · intro hd
      cases hd with
      | inl h0 =>
        exact (encodeDeltas_some_nil _ 0 l he).mpr ((rawDeltas_nil _ 0).mp h0)
      | inr hex =>
        have := (encodeDeltas_none_iff (mergedTable lines) 0).mpr hex
        rw [he] at this
        cases this

/-- A constant present in the pool is found by the identity scan. -/
theorem constIndex_mem (consts : List PyVal) (v : PyVal) (hv : v ∈ consts) :
    ∃ i, constIndex consts v = some i := by
  induction consts with
  | nil => cases hv
  | cons c rest ih =>
    by_cases hc : c = v
    · exact ⟨0, by simp [constIndex, hc]⟩
    · have hv2 : v ∈ rest := by
        cases hv with
        | head => exact absurd rfl hc
        | tail _ h2 => exact h2
      obtain ⟨i, hi⟩ := ih hv2
      exact ⟨i + 1, by simp [constIndex, hc, hi]⟩

/-- Pass-1 registration leaves every already-registered constant in
the pool. -/
theorem p1step_consts_mem (env : Env) (st : P1State) (s : Stmt)
    (r : Stmt × P1State) (h : p1step env st s = .ok r) :
    ∀ c, c ∈ st.consts → c ∈ r.2.consts := by
  intro c hc
  rcases p1step_consts env st s r h with heq | ⟨v, _, heq⟩
  · rw [heq]; exact hc
  · rw [heq]; exact List.mem_append_left _ hc

/-- Constants registered at any point of pass 1 stay registered to its
end. -/
theorem pass1_consts_mem (env : Env) (body : List Stmt) :
    ∀ (st : P1State) (out : List Stmt × P1State),
      pass1 env body st = .ok out → ∀ c, c ∈ st.consts → c ∈ out.2.consts := by
  induction body with
  | nil =>
    intro st out h c hc
    cases h
    exact hc
  | cons s rest ih =>
    intro st out h c hc
    simp only [pass1] at h
    cases hs : p1step env st s with
    | error e =>
      simp only [hs, error_bind] at h
      exact Except.noConfusion h
    | ok r =>
      simp only [hs, ok_bind] at h
      cases hr : pass1 env rest r.2 with
      | error e =>
        simp only [hr, error_bind] at h
        exact Except.noConfusion h
      | ok r2 =>
        simp only [hr, ok_bind] at h
        cases h
        exact ih r.2 r2 hr c (p1step_consts_mem env st s r hs c hc)

/-- Core goodness only depends on pool membership, so it survives the
pool growing. -/
theorem coreGood_mono (c c2 : List PyVal) (e : ExprV) (hg : coreGood c e)
    (hm : ∀ v, v ∈ c → v ∈ c2) : coreGood c2 e := by
  cases e with
  | matE op arg =>
    intro opc hk hc
    obtain ⟨v, hv1, hv2⟩ := hg opc hk hc
    exact ⟨v, hv1, hm v hv2⟩
  | nameE s => trivial
  | modE op arg => trivial
  | lshiftE inner lbl => trivial
  | otherE => trivial

/-- Statement goodness survives the pool growing. -/
theorem goodConst_mono (c c2 : List PyVal) (s : Stmt) (hg : goodConst c s)
    (hm : ∀ v, v ∈ c → v ∈ c2) : goodConst c2 s := by
  cases s with
  | exprS lineno e => exact coreGood_mono c c2 (stripLS e) hg hm
  | assignS k => trivial
  | otherS => trivial

/-- The core pass-1 step returns a consistent rewritten core, and the
core's shape is preserved for non-labelled inputs. -/
theorem p1core_good (env : Env) (st : P1State) (e : ExprV)
    (r : ExprV × P1State × Bool) (h : p1core env st e = .ok r) :
    coreGood r.2.1.consts r.1 ∧
      (stripLS r.1 = r.1 ∨ ∃ i l, e = .lshiftE i l) := by
  cases e with
  | matE op arg =>
    cases hk : keyFind opmap op with
    | none =>
      simp only [p1core, hk] at h
      exact Except.noConfusion h
    | some opc =>
      simp only [p1core, hk] at h
      by_cases hc : opc ∈ hasconst
      · simp only [if_pos hc] at h
        cases hcc : castConst env arg with
        | error e2 =>
          simp only [hcc, error_bind] at h
          exact Except.noConfusion h
        | ok v =>
          simp only [hcc, ok_bind] at h
          cases h
          refine ⟨?_, Or.inl rfl⟩
          intro opc2 hk2 _
          rw [hk] at hk2
          cases hk2
          refine ⟨v, rfl, ?_⟩
          dsimp only
          by_cases hv : v ∈ st.consts
          · simp [hv]
          · simp [hv]
      · simp only [if_neg hc] at h
        by_cases hp : opc ∈ hasfree ∨ opc ∈ haslocal ∨ opc ∈ hasname
        · simp only [if_pos hp] at h
          cases hcn : castName env arg with
          | error e2 =>
            simp only [hcn, error_bind] at h
            exact Except.noConfusion h
          | ok s2 =>
            simp only [hcn, ok_bind] at h
            cases h
            refine ⟨?_, Or.inl rfl⟩
            intro opc2 hk2 hc2
            rw [hk] at hk2
            cases hk2
            exact absurd hc2 hc
        · simp only [if_neg hp] at h
          cases h
          refine ⟨?_, Or.inl rfl⟩
          intro opc2 hk2 hc2
          rw [hk] at hk2
          cases hk2
          exact absurd hc2 hc
  | nameE s =>
    simp only [p1core] at h
    cases h
    exact ⟨trivial, Or.inl rfl⟩
  | modE op arg =>
    simp only [p1core] at h
    cases h
    exact ⟨trivial, Or.inl rfl⟩
  | lshiftE inner lbl =>
    simp only [p1core] at h
    cases h
    exact ⟨trivial, Or.inr ⟨inner, lbl, rfl⟩⟩
  | otherE =>
    simp only [p1core] at h
    cases h
    exact ⟨trivial, Or.inl rfl⟩

/-- One pass-1 step returns a statement consistent with the pool it
also returns. -/
theorem p1step_good (env : Env) (st : P1State) (s : Stmt)
    (r : Stmt × P1State) (h : p1step env st s = .ok r) :
    goodConst r.2.consts r.1 := by
  cases s with
  | exprS lineno e =>
    cases e with
    | lshiftE inner lbl =>
      simp only [p1step] at h
      cases hcn : castName env lbl with
      | error e2 =>
        simp only [hcn, error_bind] at h
        exact Except.noConfusion h
      | ok lblS =>
        simp only [hcn, ok_bind] at h
        cases hc : p1core env
            { st with labels := dictSet st.labels lblS st.bcount } inner with
        | error e2 =>
          simp only [hc, error_bind] at h
          exact Except.noConfusion h
        | ok rc =>
          simp only [hc, ok_bind] at h
          cases h
          have hg := (p1core_good env _ inner rc hc).1
          show coreGood (countStmt rc.2.1 lineno rc.2.2).consts
            (stripLS (ExprV.lshiftE rc.1 (ArgN.nameN lblS)))
          rw [countStmt_consts]
          exact hg
    | nameE s2 =>
      simp only [p1step] at h
      cases hc : p1core env st (ExprV.nameE s2) with
      | error e2 =>
        simp only [hc, error_bind] at h
        exact Except.noConfusion h
      | ok rc =>
        simp only [hc, ok_bind] at h
        cases h
        obtain ⟨hg, hs | ⟨i, l, hl⟩⟩ := p1core_good env st _ rc hc
        · show coreGood (countStmt rc.2.1 lineno rc.2.2).consts (stripLS rc.1)
          rw [countStmt_consts, hs]
          exact hg
        · cases hl
    | matE op arg =>
      simp only [p1step] at h
      cases hc : p1core env st (ExprV.matE op arg) with
      | error e2 =>
        simp only [hc, error_bind] at h
        exact Except.noConfusion h
      | ok rc =>
        simp only [hc, ok_bind] at h
        cases h
        obtain ⟨hg, hs | ⟨i, l, hl⟩⟩ := p1core_good env st _ rc hc
        · show coreGood (countStmt rc.2.1 lineno rc.2.2).consts (stripLS rc.1)
          rw [countStmt_consts, hs]
          exact hg
        · cases hl
    | modE op arg =>
      simp only [p1step] at h
      cases hc : p1core env st (ExprV.modE op arg) with
      | error e2 =>
        simp only [hc, error_bind] at h
        exact Except.noConfusion h
      | ok rc =>
        simp only [hc, ok_bind] at h
        cases h
        obtain ⟨hg, hs | ⟨i, l, hl⟩⟩ := p1core_good env st _ rc hc
        · show coreGood (countStmt rc.2.1 lineno rc.2.2).consts (stripLS rc.1)
          rw [countStmt_consts, hs]
          exact hg
        · cases hl
    | otherE =>
      simp only [p1step] at h
      cases hc : p1core env st ExprV.otherE with
      | error e2 =>
        simp only [hc, error_bind] at h
        exact Except.noConfusion h
      | ok rc =>
        simp only [hc, ok_bind] at h
        cases h
        obtain ⟨hg, hs | ⟨i, l, hl⟩⟩ := p1core_good env st _ rc hc
        · show coreGood (countStmt rc.2.1 lineno rc.2.2).consts (stripLS rc.1)
          rw [countStmt_consts, hs]
          exact hg
        · cases hl
  | assignS k =>
    simp only [p1step] at h
    cases h
    trivial
  | otherS =>
    simp only [p1step] at h
    cases h
    trivial

/-- Every statement of the rewritten listing is consistent with the
final pass-1 pools: pass 1 is exhaustive, so pass 2 can rely on its
registrations. -/
theorem pass1_good (env : Env) (body : List Stmt) :
    ∀ (st : P1State) (out : List Stmt × P1State),
      pass1 env body st = .ok out →
      ∀ s2, s2 ∈ out.1 → goodConst out.2.consts s2 := by
  induction body with
  | nil =>
    intro st out h s2 hs2
    cases h
    cases hs2
  | cons s rest ih =>
    intro st out h s2 hs2
    simp only [pass1] at h
    cases hs : p1step env st s with
    | error e =>
      simp only [hs, error_bind] at h
      exact Except.noConfusion h
    | ok r =>
      simp only [hs, ok_bind] at h
      cases hr : pass1 env rest r.2 with
      | error e =>
        simp only [hr, error_bind] at h
        exact Except.noConfusion h
      | ok r2 =>
        simp only [hr, ok_bind] at h
        cases h
        cases hs2 with
        | head =>
          exact goodConst_mono r.2.consts r2.2.consts r.1
            (p1step_good env st s r hs)
            (fun v hv => pass1_consts_mem env rest r.2 r2 hr v hv)
        | tail _ htl =>
          exact ih r.2 r2 hr s2 htl

/-- Pass-2 emission for one consistent core appends an even number of
bytes: two per emitted instruction (the constant-lookup miss, the one
branch that could append a lone opcode byte, is ruled out by pass-1
consistency), zero for skipped shapes. -/
theorem p2core_even (env : Env) (pl : Pools) (e : ExprV) (bs : List Nat)
    (h : p2core env pl e = .ok bs) (hg : coreGood pl.consts e) :
    bs.length % 2 = 0 := by
  cases e with
  | matE op arg =>
    cases hk : keyFind opmap op with
    | none =>
      simp only [p2core, hk] at h
      exact Except.noConfusion h
    | some opc =>
      simp only [p2core, hk] at h
      by_cases hb0 : opc ≤ 255
      · simp only [byteOf, if_pos hb0, ok_bind] at h
        by_cases hc : opc ∈ hasconst
        · simp only [if_pos hc] at h
          obtain ⟨v, hv1, hv2⟩ := hg opc hk hc
          subst hv1
          simp only [argVal, ok_bind] at h
          obtain ⟨i, hi⟩ := constIndex_mem pl.consts v hv2
          simp only [hi] at h
          by_cases hb1 : i ≤ 255
          · simp only [byteOf, if_pos hb1, ok_bind] at h
            cases h
            simp
          · simp only [byteOf, if_neg hb1, error_bind] at h
            exact Except.noConfusion h
        · simp only [if_neg hc] at h
          by_cases hn : opc ∈ hasname
          · simp only [if_pos hn] at h
            cases ha : argId arg with
            | error e2 =>
              simp only [ha, error_bind] at h
              exact Except.noConfusion h
            | ok s2 =>
              simp only [ha, ok_bind] at h
              cases hsi : seqIndex pl.names s2 with
              | none =>
                simp only [hsi] at h
                exact Except.noConfusion h
              | some i =>
                simp only [hsi] at h
                by_cases hb1 : i ≤ 255
                · simp only [byteOf, if_pos hb1, ok_bind] at h
                  cases h
                  simp
                · simp only [byteOf, if_neg hb1, error_bind] at h
                  exact Except.noConfusion h
          · simp only [if_neg hn] at h
            by_cases hl : opc ∈ haslocal
            · simp only [if_pos hl] at h
              cases ha : argId arg with
              | error e2 =>
                simp only [ha, error_bind] at h
                exact Except.noConfusion h
              | ok s2 =>
                simp only [ha, ok_bind] at h
                cases hsi : seqIndex pl.vars s2 with
                | none =>
                  simp only [hsi] at h
                  exact Except.noConfusion h
                | some i =>
                  simp only [hsi] at h
                  by_cases hb1 : i ≤ 255
                  · simp only [byteOf, if_pos hb1, ok_bind] at h
                    cases h
                    simp
                  · simp only [byteOf, if_neg hb1, error_bind] at h
                    exact Except.noConfusion h
            · simp only [if_neg hl] at h
              by_cases hf : opc ∈ hasfree
              · simp only [if_pos hf] at h
                cases ha : argId arg with
                | error e2 =>
                  simp only [ha, error_bind] at h
                  exact Except.noConfusion h
                | ok s2 =>
                  simp only [ha, ok_bind] at h
                  cases hsi : seqIndex pl.freevars s2 with
                  | none =>
                    simp only [hsi] at h
                    exact Except.noConfusion h
                  | some i =>
                    simp only [hsi] at h
                    by_cases hb1 : i ≤ 255
                    · simp only [byteOf, if_pos hb1, ok_bind] at h
                      cases h
                      simp
                    · simp only [byteOf, if_neg hb1, error_bind] at h
                      exact Except.noConfusion h
              · simp only [if_neg hf] at h
                by_cases hcp : opc ∈ hascompare
                · simp only [if_pos hcp] at h
                  cases ha : argVal arg with
                  | error e2 =>
                    simp only [ha, error_bind] at h
                    exact Except.noConfusion h
                  | ok v =>
                    simp only [ha, ok_bind] at h
                    cases hlit : v.lit with
                    | str s2 =>
                      simp only [hlit] at h
                      cases hsi : seqIndex cmp_op s2 with
                      | none =>
                        simp only [hsi] at h
                        exact Except.noConfusion h
                      | some i =>
                        simp only [hsi] at h
                        by_cases hb1 : i ≤ 255
                        · simp only [byteOf, if_pos hb1, ok_bind] at h
                          cases h
                          simp
                        · simp only [byteOf, if_neg hb1, error_bind] at h
                          exact Except.noConfusion h
                    | int n =>
                      simp only [hlit] at h
                      exact Except.noConfusion h
                    | noneV =>
                      simp only [hlit] at h
                      exact Except.noConfusion h
                · simp only [if_neg hcp] at h
                  by_cases hj : opc ∈ hasjabs
                  · simp only [if_pos hj] at h
                    cases ha : argId arg with
                    | error e2 =>
                      simp only [ha, error_bind] at h
                      exact Except.noConfusion h
                    | ok s2 =>
                      simp only [ha, ok_bind] at h
                      cases hll : lookupLabel pl.labels s2 with
                      | none =>
                        simp only [hll] at h
                        exact Except.noConfusion h
                      | some i =>
                        simp only [hll] at h
                        by_cases hb1 : i ≤ 255
                        · simp only [byteOf, if_pos hb1, ok_bind] at h
                          cases h
                          simp
                        · simp only [byteOf, if_neg hb1, error_bind] at h
                          exact Except.noConfusion h
                  · simp only [if_neg hj] at h
                    cases hev : evalArg env arg with
                    | error e2 =>
                      simp only [hev, error_bind] at h
                      exact Except.noConfusion h
                    | ok v =>
                      simp only [hev, ok_bind] at h
                      cases hbv : byteOfVal v with
                      | error e2 =>
                        simp only [hbv, error_bind] at h
                        exact Except.noConfusion h
                      | ok b1 =>
                        simp only [hbv, ok_bind] at h
                        cases h
                        simp
      · simp only [byteOf, if_neg hb0, error_bind] at h
        exact Except.noConfusion h
  | modE op arg =>
    cases hk : keyFind opmap op with
    | none =>
      simp only [p2core, hk] at h
      exact Except.noConfusion h
    | some opc =>
      simp only [p2core, hk] at h
      by_cases hb0 : opc ≤ 255
      · simp only [byteOf, if_pos hb0, ok_bind] at h
        cases hev : evalArg env arg with
        | error e2 =>
          simp only [hev, error_bind] at h
          exact Except.noConfusion h
        | ok v =>
          simp only [hev, ok_bind] at h
          cases hbv : byteOfVal v with
          | error e2 =>
            simp only [hbv, error_bind] at h
            exact Except.noConfusion h
          | ok b1 =>
            simp only [hbv, ok_bind] at h
            cases h
            simp
      · simp only [byteOf, if_neg hb0, error_bind] at h
        exact Except.noConfusion h
  | nameE s2 =>
    cases hk : keyFind opmap s2 with
    | none =>
      simp only [p2core, hk] at h
      exact Except.noConfusion h
    | some opc =>
      simp only [p2core, hk] at h
      by_cases hb0 : opc ≤ 255
      · simp only [byteOf, if_pos hb0, ok_bind] at h
        cases h
        simp
      · simp only [byteOf, if_neg hb0, error_bind] at h
        exact Except.noConfusion h
  | lshiftE inner lbl =>
    simp only [p2core] at h
    cases h
    simp
  | otherE =>
    simp only [p2core] at h
    cases h
    simp

/-- Pass-2 emission for one consistent statement appends an even
number of bytes. -/
theorem p2step_even (env : Env) (pl : Pools) (s : Stmt) (bs : List Nat)
    (h : p2step env pl s = .ok bs) (hg : goodConst pl.consts s) :
    bs.length % 2 = 0 := by
  cases s with
  | exprS lineno e => exact p2core_even env pl (stripLS e) bs h hg
  | assignS k =>
    simp only [p2step] at h
    cases h
    simp
  | otherS =>
    simp only [p2step] at h
    cases h
    simp

/-- The whole second pass over a pass-1-consistent listing emits an
even number of bytes. -/
theorem pass2_even (env : Env) (pl : Pools) :
    ∀ (body : List Stmt) (bc : List Nat),
      pass2 env pl body = .ok bc →
      (∀ s, s ∈ body → goodConst pl.consts s) →
      bc.length % 2 = 0 := by
  intro body
  induction body with
  | nil =>
    intro bc h _
    cases h
    simp
  | cons s rest ih =>
    intro bc h hg
    simp only [pass2] at h
    cases hs : p2step env pl s with
    | error e =>
      simp only [hs, error_bind] at h
      exact Except.noConfusion h
    | ok bs =>
      simp only [hs, ok_bind] at h
      cases hr : pass2 env pl rest with
      | error e =>
        simp only [hr, error_bind] at h
        exact Except.noConfusion h
      | ok bc2 =>
        simp only [hr, ok_bind] at h
        cases h
        have h1 := p2step_even env pl s bs hs (hg s (List.mem_cons_self s rest))
        have h2 := ih bc2 hr (fun s2 hs2 => hg s2 (List.mem_cons_of_mem s hs2))
        rw [List.length_append]
        omega

/-- C2: the fixed-width invariant.  Every listing that assembles
without an exception yields an instruction stream of even length —
each emitted instruction contributes exactly two bytes, the
constant-lookup miss (the only 1-byte path in the encoder) being
unreachable after an exhaustive pass 1 — and a bare opcode written
without an operand is emitted as its opcode byte followed by operand
byte 0. -/
theorem c2_fixed_width_stream (esc : Bool) (env : Env) (co : CodeObj)
    (body : List Stmt) (res : CodeObj) (h : bycRun esc env co body = .ok res) :
    res.codebytes.length % 2 = 0 ∧
    ∀ (pl : Pools) (n : Nat) (op : String) (bs : List Nat),
      p2step env pl (.exprS n (.nameE op)) = .ok bs →
      ∃ opc, keyFind opmap op = some opc ∧ bs = [opc, 0] := by
  constructor
  · cases hp : pass1 env body (p1init co) with
    | error e =>
      simp only [bycRun, hp] at h
      exact Except.noConfusion h
    | ok p =>
      cases h2 : pass2 env (mkPools p.2) p.1 with
      | error e =>
        simp only [bycRun, hp, h2] at h
        exact Except.noConfusion h
      | ok bc =>
        simp only [bycRun, hp, h2] at h
        have hbc : res.codebytes = bc := by
          by_cases hesc : esc = true ∧ (stackdepth bc).2 ≠ []
          · rw [if_pos hesc] at h
            exact Except.noConfusion h
          · rw [if_neg hesc] at h
            cases ho : runOptions env body (initOpts bc co p.2 (stackdepth bc).1) with
            | error e =>
              rw [ho] at h
              exact Except.noConfusion h
            | ok opts =>
              rw [ho] at h
              cases h
              rfl
        rw [hbc]
        exact pass2_even env (mkPools p.2) p.1 bc h2
          (fun s hs => pass1_good env body (p1init co) p hp s hs)
  · intro pl n op bs hb
    cases hk : keyFind opmap op with
    | none =>
      simp only [p2step, stripLS, p2core, hk] at hb
      exact Except.noConfusion hb
    | some opc =>
      simp only [p2step, stripLS, p2core, hk] at hb
      by_cases hb0 : opc ≤ 255
      · simp only [byteOf, if_pos hb0, ok_bind] at hb
        cases hb
        exact ⟨opc, rfl, rfl⟩
      · simp only [byteOf, if_neg hb0, error_bind] at hb
        exact Except.noConfusion hb

/-- C2 witness: the one-instruction listing `NOP` assembles to the
2-byte stream `[9, 0]`, of even length. -/
theorem c2_fixed_width_stream_witness :
    bycRun true env0 co0 c2wbody = .ok res2w ∧
      res2w.codebytes.length % 2 = 0 :=
  ⟨rfl, (c2_fixed_width_stream true env0 co0 c2wbody res2w rfl).1⟩

end Ike
